import Mathlib

/-!
Shallow embedding of the room membership and broadcast engine of
`src/main.py` (class `ConnectionManager`), together with proofs of the
specification's claims about it.

Modelling conventions:
* A Python `dict` keyed by user/room identifier is a function
  `String → Option α`; a Python `set` of strings is a duplicate-free
  `List String` used only through membership, insertion and removal.
* `datetime` values are abstracted: timestamps are `Nat`, the ISO
  rendering `datetime.now().isoformat()` is an opaque caller-supplied
  string, and `datetime.fromisoformat` together with the timezone
  stripping of `get_room_history` is an abstract parse function
  `String → Option Nat` (`none` = the `except` branch fires).
* `uuid.uuid4()` is a fresh-identifier generator driven by a counter in
  the state.
* Delivery over a websocket (`send_json`) is abstracted by a predicate
  `sendOk : String → Bool` saying whose sends succeed; the broadcast
  function returns the list of users a delivery was attempted to.
-/

namespace Chatbackend

/-- A stored or inbound chat message.  Only the fields the engine itself
inspects are modelled: the inbound `timestamp` field, the `stored_at`
field added at append time (line 144), and the `room_id` tag; the rest
of the payload (sender, text, coordinates, file reference) is opaque to
the engine and abstracted as `content`. -/
structure Msg where
  content : String
  timestamp : Option String := none
  stored_at : Option String := none
  room_id : Option String := none
deriving DecidableEq

/-- Metadata stored per created room (`room_metadata` values, lines
84–89).  `rtype` models the `"type"` key; `members` is the immutable
member list captured at creation. -/
structure RoomMeta where
  rtype : String
  name : String
  created_at : String
  members : List String
deriving DecidableEq

/-- A Python `set` of strings, modelled as a list. -/
abbrev SSet := List String

/-- Python `set.add`. -/
def setAdd (s : SSet) (x : String) : SSet := if x ∈ s then s else s ++ [x]

/-- Python `set.discard`: removal, a no-op when absent. -/
def setDiscard (s : SSet) (x : String) : SSet := s.filter (fun y => y ≠ x)

/-- A Python `dict` keyed by strings. -/
abbrev Map (α : Type) := String → Option α

/-- Python `d[k] = v`. -/
def mapSet {α : Type} (f : Map α) (k : String) (v : α) : Map α :=
  fun x => if x = k then some v else f x

/-- The mutable state of `ConnectionManager` (`__init__`, lines 37–43).
`active_connections` maps a user id to whether a live websocket handle
is currently registered (the handle itself is not modelled);
`room_metadata` keeps Python-dict insertion order because
`get_or_create_private_room` iterates it; `next_uuid` drives the
fresh-identifier generator standing in for `uuid.uuid4()`. -/
@[ext]
structure State where
  active_connections : String → Bool
  message_history : Map (List Msg)
  user_rooms : Map SSet
  room_members : Map SSet
  room_metadata : List (String × RoomMeta)
  user_login_times : Map Nat
  next_uuid : Nat

/-- The state built by `__init__` (lines 37–43): empty registries, with
the public room's membership set and log already present. -/
def initState : State where
  active_connections := fun _ => false
  message_history := mapSet (fun _ => none) "public" []
  user_rooms := fun _ => none
  room_members := mapSet (fun _ => none) "public" []
  room_metadata := []
  user_login_times := fun _ => none
  next_uuid := 0

/-- The fresh room identifier produced for counter value `n`, standing
in for `str(uuid.uuid4())` (line 74). -/
def freshRoomId (n : Nat) : String := "room-" ++ toString n

/-- `ConnectionManager.connect` (lines 45–59): register the socket,
record the first-login time only if none is recorded yet, and auto-join
the public room on both sides.  `now` stands for `datetime.now()`;
`room_members["public"]` is present from `__init__` on, so its lookup is
modelled with a default. -/
def connect (s : State) (user_id : String) (now : Nat) : State :=
  let s1 := { s with active_connections := fun v => if v = user_id then true else s.active_connections v }
  let s2 :=
    if (s1.user_login_times user_id).isSome then s1
    else { s1 with user_login_times := mapSet s1.user_login_times user_id now }
  let s3 := { s2 with user_rooms := mapSet s2.user_rooms user_id (setAdd ((s2.user_rooms user_id).getD []) "public") }
  { s3 with room_members := mapSet s3.room_members "public" (setAdd ((s3.room_members "public").getD []) user_id) }

/-- `ConnectionManager.disconnect` (lines 61–71): when the user is
registered, drop the registration, remove the user from the membership
set of every room in its room-set, and delete the room-set.  The Python
loop over `user_rooms[user_id]` is rendered pointwise on `room_members`,
which is equivalent because distinct keys are updated independently. -/
def disconnect (s : State) (user_id : String) : State :=
  if s.active_connections user_id then
    match s.user_rooms user_id with
    | some rooms =>
        { s with
          active_connections := fun v => if v = user_id then false else s.active_connections v
          room_members := fun r =>
            if r ∈ rooms then (s.room_members r).map (fun m => setDiscard m user_id)
            else s.room_members r
          user_rooms := fun v => if v = user_id then none else s.user_rooms v }
    | none =>
        { s with active_connections := fun v => if v = user_id then false else s.active_connections v }
  else s

/-- Python's `str.capitalize()`. -/
def pyCapitalize (str : String) : String := (str.take 1).toUpper ++ (str.drop 1).toLower

/-- `room_name or f"{room_type.capitalize()} Chat"` (line 86): Python
`or` falls through on `None` and on the empty string. -/
def roomNameOr (room_name : Option String) (room_type : String) : String :=
  match room_name with
  | some n => if n = "" then pyCapitalize room_type ++ " Chat" else n
  | none => pyCapitalize room_type ++ " Chat"

/-- `set(members)` (line 76): deduplicate the member list. -/
def pySetOf (members : List String) : SSet := members.foldl setAdd []

/-- `ConnectionManager.create_room` (lines 73–92): mint a fresh id,
initialise the membership set and an empty log, add the room to every
member's room-set, and record the immutable metadata.  `nowStr` stands
for `datetime.now().isoformat()`.  The loop over `members` is rendered
pointwise on `user_rooms`. -/
def create_room (nowStr : String) (s : State) (room_type : String) (members : List String) (room_name : Option String) : String × State :=
  let room_id := freshRoomId s.next_uuid
  (room_id,
    { active_connections := s.active_connections
      message_history := mapSet s.message_history room_id []
      user_rooms := fun v => if v ∈ members then some (setAdd ((s.user_rooms v).getD []) room_id) else s.user_rooms v
      room_members := mapSet s.room_members room_id (pySetOf members)
      room_metadata := s.room_metadata ++ [(room_id, { rtype := room_type, name := roomNameOr room_name room_type, created_at := nowStr, members := members })]
      user_login_times := s.user_login_times
      next_uuid := s.next_uuid + 1 })

/-- `set(metadata["members"]) == {user1, user2}` (lines 97–98): the
stored member list, viewed as a set, equals the unordered pair. -/
def setEqPair (l : List String) (a b : String) : Bool :=
  l.all (fun x => decide (x = a) || decide (x = b)) && (decide (a ∈ l) && decide (b ∈ l))

/-- The scan of `get_or_create_private_room` (lines 95–99) over the
room-metadata dictionary in insertion order: the first `private` room
whose stored member list equals `{a, b}` as a set, mirroring the two
nested `if`s of the source loop. -/
def findMatch : List (String × RoomMeta) → String → String → Option String
  | [], _, _ => none
  | p :: rest, a, b =>
      if p.2.rtype = "private" then
        if setEqPair p.2.members a b then some p.1
        else findMatch rest a b
      else findMatch rest a b

/-- `ConnectionManager.get_or_create_private_room` (lines 94–101):
return the first matching private room, else create one. -/
def get_or_create_private_room (nowStr : String) (s : State) (user1 user2 : String) : String × State :=
  match findMatch s.room_metadata user1 user2 with
  | some rid => (rid, s)
  | none => create_room nowStr s "private" [user1, user2] none

/-- `ConnectionManager.verify_room_access` (lines 103–107): the room has
a membership set and the user is in it. -/
def verify_room_access (s : State) (user_id : String) (room_id : String) : Bool :=
  match s.room_members room_id with
  | none => false
  | some members => decide (user_id ∈ members)

/-- `ConnectionManager.get_user_login_time` (lines 109–111): the recorded
first-login time, defaulting to the current time for an unknown user. -/
def get_user_login_time (s : State) (user_id : String) (now : Nat) : Nat :=
  (s.user_login_times user_id).getD now

/-- `ConnectionManager.join_room` (lines 113–121). -/
def join_room (s : State) (user_id room_id : String) : Bool × State :=
  match s.room_members room_id with
  | none => (false, s)
  | some m =>
      let s1 := { s with room_members := mapSet s.room_members room_id (setAdd m user_id) }
      let s2 := { s1 with user_rooms := mapSet s1.user_rooms user_id (setAdd ((s1.user_rooms user_id).getD []) room_id) }
      (true, s2)

/-- `ConnectionManager.leave_room` (lines 123–133): refused for the
public room; otherwise discard the user from the room's membership set
(when the room has one) and the room from the user's room-set (when the
user has one), and report success. -/
def leave_room (s : State) (user_id room_id : String) : Bool × State :=
  if room_id = "public" then (false, s)
  else
    let s1 :=
      match s.room_members room_id with
      | some m => { s with room_members := mapSet s.room_members room_id (setDiscard m user_id) }
      | none => s
    let s2 :=
      match s1.user_rooms user_id with
      | some rs => { s1 with user_rooms := mapSet s1.user_rooms user_id (setDiscard rs room_id) }
      | none => s1
    (true, s2)

/-- The stored copy of a broadcast message:
`{**message, "room_id": room_id, "stored_at": datetime.now().isoformat()}`
(lines 141–145). -/
def storedMsg (message : Msg) (room_id nowStr : String) : Msg :=
  { message with room_id := some room_id, stored_at := some nowStr }

/-- The log append of `broadcast_to_room` (lines 137–145): create the
room's log lazily and append the stored copy. -/
def appendHist (s : State) (room_id nowStr : String) (message : Msg) : State :=
  { s with message_history := mapSet s.message_history room_id (((s.message_history room_id).getD []) ++ [storedMsg message room_id nowStr]) }

/-- `ConnectionManager.broadcast_to_room` (lines 135–161): unless the
ephemeral flag is set, append the stored copy to the room's log,
creating the log lazily; if the room has no membership set, stop; else
attempt delivery to every member with a registered connection, and run
the full disconnect cleanup on every member whose delivery failed, after
the loop.  `sendOk u` abstracts whether `send_json` to `u` raises;
returns the new state and the list of users delivery was attempted
to. -/
def broadcast_to_room (sendOk : String → Bool) (nowStr : String) (s : State) (room_id : String) (message : Msg) (exclude_from_history : Bool) : State × List String :=
  let s1 := if exclude_from_history then s else appendHist s room_id nowStr message
  match s1.room_members room_id with
  | none => (s1, [])
  | some members =>
      let attempted := members.filter (fun u => s1.active_connections u)
      let failed := attempted.filter (fun u => !(sendOk u))
      (failed.foldl disconnect s1, attempted)

/-- The effective timestamp string of a stored message, mirroring
`msg.get("timestamp") or msg.get("stored_at")` (line 199): Python `or`
falls through on a missing key and on the empty string. -/
def effTs (m : Msg) : Option String :=
  match m.timestamp with
  | some str => if str = "" then m.stored_at else some str
  | none => m.stored_at

/-- The parsed timestamp of a message under the abstract parse function
standing in for `datetime.fromisoformat` plus the timezone stripping of
lines 201–205; `none` when the effective field is absent, empty (falsy,
line 200), or fails to parse (the `except` of line 210). -/
def msgTime (parse : String → Option Nat) (m : Msg) : Option Nat :=
  match effTs m with
  | none => none
  | some str => if str = "" then none else parse str

/-- One step of the history filter (lines 196–215): a message is
retained iff its timestamp is absent or unparsable (fail-open), or not
earlier than the user's first-login time. -/
def keepMsg (parse : String → Option Nat) (login : Nat) (m : Msg) : Bool :=
  match msgTime parse m with
  | none => true
  | some t => decide (login ≤ t)

/-- Python's `l[-limit:]` for a non-negative `limit` (line 217): the last
`limit` elements — except that `limit = 0` yields the whole list,
because `-0 == 0` in Python and `l[0:]` is all of `l`. -/
def pyLastSlice {α : Type} (l : List α) (limit : Nat) : List α :=
  if limit = 0 then l else l.drop (l.length - limit)

/-- `ConnectionManager.get_room_history` (lines 183–217): empty unless
the caller passes the access check and the room has a log; otherwise the
log is filtered by the caller's first-login time and cut to the trailing
slice. -/
def get_room_history (parse : String → Option Nat) (now : Nat) (s : State) (room_id user_id : String) (limit : Nat) : List Msg :=
  if verify_room_access s user_id room_id = false then []
  else
    match s.message_history room_id with
    | none => []
    | some log => pyLastSlice (log.filter (keepMsg parse (get_user_login_time s user_id now))) limit

/-- Modelled from the spec: the lookup that §4.1 and claim C3 describe
for `get_or_create_private_room` — a scan of `private`-typed rooms for
one whose LIVE membership set (`room_members`) equals `{a, b}`.  The
source (lines 94–101) instead compares the immutable
`metadata["members"]` list; this definition exists only to compare the
two behaviours. -/
def liveEqPair (s : State) (rid : String) (a b : String) : Bool :=
  match s.room_members rid with
  | none => false
  | some m => m.all (fun x => decide (x = a) || decide (x = b)) && (decide (a ∈ m) && decide (b ∈ m))

/-- Modelled from the spec: first private room, in directory order,
whose live membership set equals `{a, b}`. -/
def findMatchLive (s : State) (a b : String) : Option String :=
  (s.room_metadata.find? (fun p => decide (p.2.rtype = "private") && liveEqPair s p.1 a b)).map Prod.fst

/-- Registry coherence for one user: every room whose live membership
set contains `u` is listed in `u`'s room-set.  Every state reachable
from `initState` satisfies this, because each operation (`connect`,
`create_room`, `join_room`, `leave_room`, `disconnect`) adds and removes
a user from `room_members` and `user_rooms` together. -/
def CoherentFor (s : State) (u : String) : Prop :=
  ∀ r m, s.room_members r = some m → u ∈ m → r ∈ (s.user_rooms u).getD []

/-- Full disconnect cleanup has happened for `u`: not registered, and in
no room's live membership set. -/
def Removed (s : State) (u : String) : Prop :=
  s.active_connections u = false ∧ ∀ r m, s.room_members r = some m → u ∉ m

/-- Every parsed timestamp in the message is strictly before `now`; true
of every normally-stored message when `now` is the current time. -/
def timeLt (parse : String → Option Nat) (now : Nat) (m : Msg) : Bool :=
  match msgTime parse m with
  | none => true
  | some t => decide (t < now)

/-- A concrete parse function for sample runs: it understands the two
well-formed timestamp strings occurring in the sample messages and
rejects everything else. -/
def parseW : String → Option Nat :=
  fun str => if str = "T5" then some 5 else if str = "T20" then some 20 else none

/-- Sample message with timestamp 5. -/
def msgA : Msg := { content := "early", timestamp := some "T5" }

/-- Sample message with timestamp 20. -/
def msgB : Msg := { content := "late", timestamp := some "T20" }

/-- Sample message with an unparsable timestamp. -/
def msgC : Msg := { content := "odd", timestamp := some "not-a-date" }

/-- Sample delivery predicate: only sends to `alice` succeed. -/
def sendOkW : String → Bool := fun u => decide (u = "alice")

/-- A sample state of the shape `ConnectionManager` reaches in a run:
`alice` (first seen at 10) and `bob` (first seen at 1) are connected and
in the public room and group `g1`; `ghost` is a member of `g1` and of
room `lonely` but has never connected; `lonely` has no log yet. -/
def sMain : State where
  active_connections := fun u => decide (u = "alice") || decide (u = "bob")
  message_history := fun r =>
    if r = "public" then some [msgA, msgB, msgC]
    else if r = "g1" then some [msgA, msgC]
    else none
  user_rooms := fun u =>
    if u = "alice" then some ["public", "g1"]
    else if u = "bob" then some ["public", "g1"]
    else if u = "ghost" then some ["g1", "lonely"]
    else none
  room_members := fun r =>
    if r = "public" then some ["alice", "bob"]
    else if r = "g1" then some ["alice", "bob", "ghost"]
    else if r = "lonely" then some ["ghost"]
    else none
  room_metadata := [("g1", { rtype := "group", name := "G", created_at := "T0", members := ["alice", "bob", "ghost"] })]
  user_login_times := fun u =>
    if u = "alice" then some 10 else if u = "bob" then some 1 else none
  next_uuid := 0

/-- A state exhibiting the divergence between the immutable metadata
member list and the live membership set: private room `roomX` was
created for `a` and `b` (stored member list `["a", "b"]`), but `a` has
since been removed from the live set, which is now `["b"]`. -/
def sC3 : State where
  active_connections := fun _ => false
  message_history := fun r => if r = "public" then some [] else if r = "roomX" then some [] else none
  user_rooms := fun u => if u = "b" then some ["roomX"] else none
  room_members := fun r => if r = "public" then some [] else if r = "roomX" then some ["b"] else none
  room_metadata := [("roomX", { rtype := "private", name := "a", created_at := "T0", members := ["a", "b"] })]
  user_login_times := fun _ => none
  next_uuid := 7

/-! ## Basic lemmas about the embedded operations -/

theorem setDiscard_not_mem (m : SSet) (u : String) : u ∉ setDiscard m u := by
  simp [setDiscard, List.mem_filter]

theorem mem_of_mem_setDiscard {m : SSet} {u x : String} (h : x ∈ setDiscard m u) : x ∈ m :=
  (List.mem_filter.mp h).1

theorem setDiscard_idem (m : SSet) (u : String) : setDiscard (setDiscard m u) u = setDiscard m u := by
  simp [setDiscard, List.filter_filter]

theorem setDiscard_eq_self {m : SSet} {u : String} (h : u ∉ m) : setDiscard m u = m := by
  unfold setDiscard
  apply List.filter_eq_self.mpr
  intro a ha
  simp only [ne_eq, decide_eq_true_eq]
  exact fun he => h (he ▸ ha)

theorem mapSet_same {α : Type} (f : Map α) (k : String) (v : α) : mapSet f k v k = some v := by
  simp [mapSet]

theorem mapSet_mapSet {α : Type} (f : Map α) (k : String) (v w : α) :
    mapSet (mapSet f k v) k w = mapSet f k w := by
  funext x
  by_cases h : x = k <;> simp [mapSet, h]

theorem mapSet_eq_self {α : Type} {f : Map α} {k : String} {v : α} (h : f k = some v) :
    mapSet f k v = f := by
  funext x
  by_cases hx : x = k <;> simp [mapSet, hx]
  exact h.symm

theorem mem_pyLastSlice {α : Type} {l : List α} {n : Nat} {x : α} (h : x ∈ pyLastSlice l n) :
    x ∈ l := by
  unfold pyLastSlice at h
  split at h
  · exact h
  · exact List.mem_of_mem_drop h

theorem disconnect_message_history (s : State) (u : String) :
    (disconnect s u).message_history = s.message_history := by
  unfold disconnect
  split
  · split <;> rfl
  · rfl

theorem foldl_disconnect_message_history (L : List String) (s : State) :
    (L.foldl disconnect s).message_history = s.message_history := by
  induction L generalizing s with
  | nil => rfl
  | cons v t ih =>
      rw [List.foldl_cons, ih (disconnect s v), disconnect_message_history]

/-- The intermediate state of `broadcast_to_room` agrees with `s` on
everything but the message log. -/
theorem broadcast_s1_room_members (s : State) (room_id nowStr : String) (message : Msg) (excl : Bool) :
    (if excl then s else appendHist s room_id nowStr message).room_members = s.room_members := by
  cases excl <;> rfl

theorem broadcast_s1_active (s : State) (room_id nowStr : String) (message : Msg) (excl : Bool) :
    (if excl then s else appendHist s room_id nowStr message).active_connections
      = s.active_connections := by
  cases excl <;> rfl

/-- Closed form of `broadcast_to_room`, with the membership lookup and
the recipient filter phrased over the input state. -/
theorem broadcast_eq (sendOk : String → Bool) (nowStr : String) (s : State)
    (room_id : String) (message : Msg) (excl : Bool) :
    broadcast_to_room sendOk nowStr s room_id message excl
      = (match s.room_members room_id with
         | none => (if excl then s else appendHist s room_id nowStr message, [])
         | some members =>
             (((members.filter (fun v => s.active_connections v)).filter
                 (fun v => !(sendOk v))).foldl disconnect
               (if excl then s else appendHist s room_id nowStr message),
              members.filter (fun v => s.active_connections v))) := by
  simp only [broadcast_to_room]
  rw [broadcast_s1_room_members]
  simp only [broadcast_s1_active]

/-! ## Disconnect cleanup -/

/-- Disconnecting a registered user whose registries are coherent leaves
the user deregistered and in no room's membership set. -/
theorem disconnect_clean (s : State) (u : String)
    (hcoh : CoherentFor s u) (hact : s.active_connections u = true) :
    Removed (disconnect s u) u := by
  unfold disconnect
  rw [hact]
  simp only [if_true]
  split
  next rooms hur =>
    refine ⟨by simp, ?_⟩
    intro r m hm
    dsimp only at hm
    by_cases hr : r ∈ rooms
    · rw [if_pos hr, Option.map_eq_some'] at hm
      obtain ⟨m0, _, hmm⟩ := hm
      rw [← hmm]
      exact setDiscard_not_mem m0 u
    · rw [if_neg hr] at hm
      intro hu
      exact hr (by simpa [hur] using hcoh r m hm hu)
  next hur =>
    refine ⟨by simp, ?_⟩
    intro r m hm hu
    have := hcoh r m hm hu
    rw [hur] at this
    simp at this

/-- Disconnecting anyone preserves full-removal of `u`: `disconnect`
only ever shrinks the registry and the membership sets. -/
theorem removed_disconnect (s : State) (u v : String) (h : Removed s u) :
    Removed (disconnect s v) u := by
  obtain ⟨ha, hm⟩ := h
  unfold disconnect
  split
  · split
    next rooms hvr =>
      constructor
      · by_cases huv : u = v <;> simp [huv, ha]
      · intro r m hmem
        dsimp only at hmem
        by_cases hr : r ∈ rooms
        · rw [if_pos hr, Option.map_eq_some'] at hmem
          obtain ⟨m0, hm0, hmm⟩ := hmem
          rw [← hmm]
          exact fun hx => hm r m0 hm0 (mem_of_mem_setDiscard hx)
        · rw [if_neg hr] at hmem
          exact hm r m hmem
    next hvr =>
      refine ⟨?_, hm⟩
      by_cases huv : u = v <;> simp [huv, ha]
  · exact ⟨ha, hm⟩

/-- Disconnecting a different user preserves coherence for `u`. -/
theorem coherentFor_disconnect (s : State) (u v : String) (hne : v ≠ u)
    (h : CoherentFor s u) : CoherentFor (disconnect s v) u := by
  unfold disconnect
  split
  · split
    next rooms hvr =>
      intro r m hm hu
      dsimp only at hm ⊢
      rw [if_neg (fun he => hne he.symm)]
      by_cases hr : r ∈ rooms
      · rw [if_pos hr, Option.map_eq_some'] at hm
        obtain ⟨m0, hm0, hmm⟩ := hm
        rw [← hmm] at hu
        exact h r m0 hm0 (mem_of_mem_setDiscard hu)
      · rw [if_neg hr] at hm
        exact h r m hm hu
    next hvr => exact h
  · exact h

/-- Disconnecting a different user does not deregister `u`. -/
theorem disconnect_active_ne (s : State) (u v : String) (hne : u ≠ v) :
    (disconnect s v).active_connections u = s.active_connections u := by
  unfold disconnect
  split
  · split <;> simp [hne]
  · rfl

theorem foldl_disconnect_removed (L : List String) (s : State) (u : String)
    (h : Removed s u) : Removed (L.foldl disconnect s) u := by
  induction L generalizing s with
  | nil => exact h
  | cons v t ih => exact ih (disconnect s v) (removed_disconnect s u v h)

/-- Running the disconnect cleanup over a list containing the registered
user `u` fully removes `u`, whatever else is on the list. -/
theorem foldl_disconnect_clean (L : List String) (s : State) (u : String)
    (hcoh : CoherentFor s u) (hu : u ∈ L) (hact : s.active_connections u = true) :
    Removed (L.foldl disconnect s) u := by
  induction L generalizing s with
  | nil => cases hu
  | cons v t ih =>
      by_cases hv : v = u
      · subst hv
        exact foldl_disconnect_removed t (disconnect s v) v (disconnect_clean s v hcoh hact)
      · rcases List.mem_cons.mp hu with h1 | h1
        · exact absurd h1.symm hv
        · exact ih (disconnect s v) (coherentFor_disconnect s u v hv hcoh) h1
            (by rw [disconnect_active_ne s u v (fun he => hv he.symm)]; exact hact)

/-! ## The private-room lookup -/

theorem setEqPair_iff (l : List String) (a b : String) :
    setEqPair l a b = true ↔ (∀ x ∈ l, x = a ∨ x = b) ∧ a ∈ l ∧ b ∈ l := by
  simp [setEqPair, List.all_eq_true]

theorem setEqPair_comm (l : List String) (a b : String) :
    setEqPair l a b = setEqPair l b a := by
  rw [Bool.eq_iff_iff, setEqPair_iff, setEqPair_iff]
  constructor
  · rintro ⟨h1, h2, h3⟩
    exact ⟨fun x hx => (h1 x hx).symm, h3, h2⟩
  · rintro ⟨h1, h2, h3⟩
    exact ⟨fun x hx => (h1 x hx).symm, h3, h2⟩

theorem setEqPair_pair (a b : String) : setEqPair [a, b] a b = true := by
  rw [setEqPair_iff]
  refine ⟨?_, by simp, by simp⟩
  intro x hx
  rcases List.mem_cons.mp hx with h | h
  · exact Or.inl h
  · exact Or.inr (by simpa using h)

theorem findMatch_comm (l : List (String × RoomMeta)) (a b : String) :
    findMatch l a b = findMatch l b a := by
  induction l with
  | nil => rfl
  | cons p t ih =>
      unfold findMatch
      rw [setEqPair_comm, ih]

theorem findMatch_some {l : List (String × RoomMeta)} {a b rid : String}
    (h : findMatch l a b = some rid) :
    ∃ md, (rid, md) ∈ l ∧ md.rtype = "private" ∧ setEqPair md.members a b = true := by
  induction l with
  | nil => cases h
  | cons p t ih =>
      unfold findMatch at h
      by_cases h1 : p.2.rtype = "private"
      · rw [if_pos h1] at h
        by_cases h2 : setEqPair p.2.members a b = true
        · rw [if_pos h2] at h
          cases h
          exact ⟨p.2, by simp, h1, h2⟩
        · rw [if_neg h2] at h
          obtain ⟨md, hmem, hp, hs⟩ := ih h
          exact ⟨md, List.mem_cons_of_mem p hmem, hp, hs⟩
      · rw [if_neg h1] at h
        obtain ⟨md, hmem, hp, hs⟩ := ih h
        exact ⟨md, List.mem_cons_of_mem p hmem, hp, hs⟩

theorem findMatch_eq_none {l : List (String × RoomMeta)} {a b : String}
    (h : ∀ p ∈ l, p.2.rtype = "private" → setEqPair p.2.members a b = false) :
    findMatch l a b = none := by
  induction l with
  | nil => rfl
  | cons p t ih =>
      unfold findMatch
      by_cases h1 : p.2.rtype = "private"
      · rw [if_pos h1]
        have h2 : setEqPair p.2.members a b = false := h p (List.mem_cons_self p t) h1
        rw [if_neg (by simp [h2])]
        exact ih (fun q hq => h q (List.mem_cons_of_mem p hq))
      · rw [if_neg h1]
        exact ih (fun q hq => h q (List.mem_cons_of_mem p hq))

theorem findMatch_none_forall {l : List (String × RoomMeta)} {a b : String}
    (h : findMatch l a b = none) :
    ∀ p ∈ l, p.2.rtype = "private" → setEqPair p.2.members a b = false := by
  induction l with
  | nil => intro p hp; cases hp
  | cons q t ih =>
      unfold findMatch at h
      intro p hp hpriv
      by_cases h1 : q.2.rtype = "private"
      · rw [if_pos h1] at h
        by_cases h2 : setEqPair q.2.members a b = true
        · rw [if_pos h2] at h; cases h
        · rcases List.mem_cons.mp hp with hq | hq
          · subst hq
            exact Bool.eq_false_iff.mpr h2
          · rw [if_neg h2] at h
            exact ih h p hq hpriv
      · rw [if_neg h1] at h
        rcases List.mem_cons.mp hp with hq | hq
        · subst hq; exact absurd hpriv h1
        · exact ih h p hq hpriv

theorem findMatch_append_none {l1 l2 : List (String × RoomMeta)} {a b : String}
    (h : findMatch l1 a b = none) :
    findMatch (l1 ++ l2) a b = findMatch l2 a b := by
  induction l1 with
  | nil => rfl
  | cons p t ih =>
      rw [List.cons_append]
      conv_lhs => unfold findMatch
      unfold findMatch at h
      by_cases h1 : p.2.rtype = "private"
      · rw [if_pos h1] at h ⊢
        by_cases h2 : setEqPair p.2.members a b = true
        · rw [if_pos h2] at h; cases h
        · rw [if_neg h2] at h ⊢
          exact ih h
      · rw [if_neg h1] at h ⊢
        exact ih h

/-! ## The claims -/

/-- C1: `verify_room_access` returns true iff the room is present in the
room directory (`room_members`) with the user in its live membership
set; and a user outside a room's membership set is never a broadcast
delivery target for that room and always gets an empty history for
it. -/
theorem claim_C1 (s : State) (u r : String) (sendOk : String → Bool)
    (nowStr : String) (message : Msg) (excl : Bool)
    (parse : String → Option Nat) (now limit : Nat) :
    (verify_room_access s u r = true ↔ ∃ m, s.room_members r = some m ∧ u ∈ m)
    ∧ ((∀ m, s.room_members r = some m → u ∉ m) →
        u ∉ (broadcast_to_room sendOk nowStr s r message excl).2
        ∧ get_room_history parse now s r u limit = []) := by
  constructor
  · cases h : s.room_members r with
    | none => simp [verify_room_access, h]
    | some m => simp [verify_room_access, h]
  · intro hnm
    have hv : verify_room_access s u r = false := by
      cases h : s.room_members r with
      | none => simp [verify_room_access, h]
      | some m =>
          simp only [verify_room_access, h]
          exact decide_eq_false (hnm m h)
    constructor
    · rw [broadcast_eq]
      cases h : s.room_members r with
      | none => simp
      | some members =>
          simp only []
          intro hmem
          exact hnm members h (List.mem_filter.mp hmem).1
    · simp [get_room_history, hv]

/-- C1 witness: in `sMain`, `eve` is not a member of `g1`, is not a
delivery target of a broadcast to `g1`, and gets an empty history. -/
theorem claim_C1_witness :
    (∀ m, sMain.room_members "g1" = some m → "eve" ∉ m)
    ∧ ("eve" ∉ (broadcast_to_room sendOkW "T9" sMain "g1" { content := "x" } false).2
       ∧ get_room_history parseW 0 sMain "g1" "eve" 100 = []) := by
  have h : ∀ m, sMain.room_members "g1" = some m → "eve" ∉ m := by
    intro m hm
    simp only [sMain] at hm
    simp at hm
    subst hm
    decide
  exact ⟨h, (claim_C1 sMain "eve" "g1" sendOkW "T9" { content := "x" } false parseW 0 100).2 h⟩

/-- C2: for a user with a recorded first-seen time `t0`, the history
returned for any room and limit contains no message whose parsed
timestamp is strictly earlier than `t0`; and a message whose timestamp
is absent or cannot be parsed always passes the time filter
(fail-open). -/
theorem claim_C2 (parse : String → Option Nat) (now : Nat) (s : State)
    (room_id user_id : String) (limit : Nat) (t0 : Nat)
    (hlogin : s.user_login_times user_id = some t0) :
    (∀ m ∈ get_room_history parse now s room_id user_id limit,
        ∀ t, msgTime parse m = some t → ¬ t < t0)
    ∧ (∀ m, msgTime parse m = none → keepMsg parse t0 m = true) := by
  constructor
  · intro m hm t ht
    have hlt : get_user_login_time s user_id now = t0 := by
      simp [get_user_login_time, hlogin]
    unfold get_room_history at hm
    split at hm
    · cases hm
    · split at hm
      · cases hm
      · have hfil := mem_pyLastSlice hm
        have hkeep := (List.mem_filter.mp hfil).2
        rw [hlt] at hkeep
        unfold keepMsg at hkeep
        rw [ht] at hkeep
        simpa using hkeep
  · intro m h
    simp [keepMsg, h]

/-- C2 witness: `alice` was first seen at time 10; her public-room
history never contains a message parsed to an earlier time. -/
theorem claim_C2_witness :
    sMain.user_login_times "alice" = some 10
    ∧ ((∀ m ∈ get_room_history parseW 0 sMain "public" "alice" 100,
          ∀ t, msgTime parseW m = some t → ¬ t < 10)
       ∧ (∀ m, msgTime parseW m = none → keepMsg parseW 10 m = true)) :=
  ⟨rfl, claim_C2 parseW 0 sMain "public" "alice" 100 10 rfl⟩

/-- C3 counterexample: in `sC3` no private room's LIVE membership set
equals `{a, b}` (the claimed lookup finds nothing, so the claim requires
a new room to be created), yet the code returns the pre-existing room
`roomX` — matched through the immutable metadata member list — and
leaves the state unchanged. -/
theorem claim_C3_counterexample :
    findMatchLive sC3 "a" "b" = none
    ∧ get_or_create_private_room "T9" sC3 "a" "b" = ("roomX", sC3) := by
  constructor
  · rfl
  · rfl

/-- C3 amended: `get_or_create_private_room` keys its scan on the
IMMUTABLE creation-time member list stored in `room_metadata`, not on
the live membership set: the returned room always carries private
metadata whose stored member list equals `{a, b}` as a set; when no
stored private member list matches, a fresh private room with member
list `[a, b]` is appended; and on the first metadata match the matched
room's id is returned with the state unchanged. -/
theorem claim_C3_amended (nowStr : String) (s : State) (a b : String) :
    (∃ md, ((get_or_create_private_room nowStr s a b).1, md)
          ∈ (get_or_create_private_room nowStr s a b).2.room_metadata
        ∧ md.rtype = "private" ∧ setEqPair md.members a b = true)
    ∧ ((∀ p ∈ s.room_metadata, p.2.rtype = "private" → setEqPair p.2.members a b = false) →
        (get_or_create_private_room nowStr s a b).1 = freshRoomId s.next_uuid
        ∧ ∃ md, (get_or_create_private_room nowStr s a b).2.room_metadata
              = s.room_metadata ++ [(freshRoomId s.next_uuid, md)]
            ∧ md.rtype = "private" ∧ md.members = [a, b])
    ∧ (∀ rid, findMatch s.room_metadata a b = some rid →
        get_or_create_private_room nowStr s a b = (rid, s)) := by
  refine ⟨?_, ?_, ?_⟩
  · cases h : findMatch s.room_metadata a b with
    | some rid =>
        obtain ⟨md, hmem, hp, hs⟩ := findMatch_some h
        simp only [get_or_create_private_room, h]
        exact ⟨md, hmem, hp, hs⟩
    | none =>
        simp only [get_or_create_private_room, h, create_room]
        refine ⟨{ rtype := "private", name := roomNameOr none "private",
                  created_at := nowStr, members := [a, b] }, ?_, rfl, setEqPair_pair a b⟩
        simp
  · intro hnone
    have h : findMatch s.room_metadata a b = none := findMatch_eq_none hnone
    refine ⟨by simp [get_or_create_private_room, h, create_room], ?_⟩
    exact ⟨{ rtype := "private", name := roomNameOr none "private",
             created_at := nowStr, members := [a, b] },
           by simp [get_or_create_private_room, h, create_room], rfl, rfl⟩
  · intro rid h
    simp [get_or_create_private_room, h]

/-- C3 amended witness: in `sMain` no private metadata matches
`{alice, eve}`, so the call mints the fresh room id. -/
theorem claim_C3_witness :
    (∀ p ∈ sMain.room_metadata, p.2.rtype = "private" →
        setEqPair p.2.members "alice" "eve" = false)
    ∧ (get_or_create_private_room "T9" sMain "alice" "eve").1 = freshRoomId sMain.next_uuid := by
  have h : ∀ p ∈ sMain.room_metadata, p.2.rtype = "private" →
      setEqPair p.2.members "alice" "eve" = false := by decide
  exact ⟨h, ((claim_C3_amended "T9" sMain "alice" "eve").2.1 h).1⟩

/-- C4 counterexample: with `limit = 0`, the slice `[-0:]` of the
filtered log is the whole filtered log — here two messages, violating
"the result never contains more than `limit` messages". -/
theorem claim_C4_counterexample :
    get_room_history parseW 0 sMain "public" "alice" 0 = [msgB, msgC]
    ∧ ¬ ((get_room_history parseW 0 sMain "public" "alice" 0).length ≤ 0) := by
  constructor
  · rfl
  · decide

/-- C4 amended: the history is the `[-limit:]` Python slice of the
time-filtered log; for `limit ≥ 1` that is exactly the last `limit`
elements in arrival order (a suffix of the filtered log, never longer
than `limit`), while for `limit = 0` it is the ENTIRE filtered log,
because `-0 == 0` in Python. -/
theorem claim_C4_amended (parse : String → Option Nat) (now : Nat) (s : State)
    (room_id user_id : String) (limit : Nat) (log : List Msg)
    (hacc : verify_room_access s user_id room_id = true)
    (hlog : s.message_history room_id = some log) :
    get_room_history parse now s room_id user_id limit
      = pyLastSlice (log.filter (keepMsg parse (get_user_login_time s user_id now))) limit
    ∧ (1 ≤ limit →
        (get_room_history parse now s room_id user_id limit).length ≤ limit)
    ∧ (limit = 0 →
        get_room_history parse now s room_id user_id limit
          = log.filter (keepMsg parse (get_user_login_time s user_id now)))
    ∧ (∃ pre, log.filter (keepMsg parse (get_user_login_time s user_id now))
          = pre ++ get_room_history parse now s room_id user_id limit) := by
  have h0 : get_room_history parse now s room_id user_id limit
      = pyLastSlice (log.filter (keepMsg parse (get_user_login_time s user_id now))) limit := by
    simp [get_room_history, hacc, hlog]
  refine ⟨h0, ?_, ?_, ?_⟩
  · intro hlim
    rw [h0]
    unfold pyLastSlice
    rw [if_neg (by omega)]
    rw [List.length_drop]
    omega
  · intro hlim
    rw [h0, hlim]
    rfl
  · rw [h0]
    unfold pyLastSlice
    split
    · exact ⟨[], rfl⟩
    · exact ⟨_, (List.take_append_drop _ _).symm⟩

/-- C4 amended witness: `alice` in the public room with `limit = 2` gets
the last two filtered messages. -/
theorem claim_C4_witness :
    verify_room_access sMain "alice" "public" = true
    ∧ get_room_history parseW 0 sMain "public" "alice" 2 = [msgB, msgC] :=
  ⟨by decide,
   ((claim_C4_amended parseW 0 sMain "public" "alice" 2 [msgA, msgB, msgC]
       (by decide) rfl).1).trans (by decide)⟩

/-- C5: a recipient whose delivery attempt fails during a broadcast gets
the FULL disconnect cleanup — deregistered from the connection registry
and removed from every room's membership set — while the set of
recipients attempted is still exactly the room's connected members,
unaffected by the failure (no abort of the loop). -/
theorem claim_C5 (sendOk : String → Bool) (nowStr : String) (s : State)
    (room_id : String) (message : Msg) (excl : Bool) (u : String) (members : SSet)
    (hcoh : CoherentFor s u)
    (hmem : s.room_members room_id = some members)
    (hfail : sendOk u = false)
    (hatt : u ∈ (broadcast_to_room sendOk nowStr s room_id message excl).2) :
    Removed (broadcast_to_room sendOk nowStr s room_id message excl).1 u
    ∧ (broadcast_to_room sendOk nowStr s room_id message excl).2
        = members.filter (fun v => s.active_connections v) := by
  simp only [broadcast_eq, hmem] at hatt ⊢
  have hmem2 := List.mem_filter.mp hatt
  refine ⟨?_, by trivial⟩
  apply foldl_disconnect_clean
  · cases excl
    · exact hcoh
    · exact hcoh
  · exact List.mem_filter.mpr ⟨hatt, by simp [hfail]⟩
  · cases excl
    · exact hmem2.2
    · exact hmem2.2

/-- C5 witness: `bob`'s delivery fails in a broadcast to `g1`; he is
attempted, then fully cleaned up. -/
theorem claim_C5_witness :
    CoherentFor sMain "bob"
    ∧ sendOkW "bob" = false
    ∧ "bob" ∈ (broadcast_to_room sendOkW "T9" sMain "g1" { content := "x" } false).2
    ∧ Removed (broadcast_to_room sendOkW "T9" sMain "g1" { content := "x" } false).1 "bob" := by
  have hcoh : CoherentFor sMain "bob" := by
    intro r m hm hb
    simp only [sMain] at hm
    by_cases h1 : r = "public"
    · subst h1; simp at hm; subst hm; decide
    · by_cases h2 : r = "g1"
      · subst h2; simp at hm; subst hm; decide
      · by_cases h3 : r = "lonely"
        · subst h3
          simp at hm
          subst hm
          exact absurd hb (by decide)
        · rw [if_neg h1, if_neg h2, if_neg h3] at hm
          cases hm
  refine ⟨hcoh, by decide, by decide, ?_⟩
  exact (claim_C5 sendOkW "T9" sMain "g1" { content := "x" } false "bob"
    ["alice", "bob", "ghost"] hcoh rfl (by decide) (by decide)).1

/-- C6: a persisted broadcast appends the stored copy to the room's log
first, creating the log lazily even when the room has no membership
entry; when the room is absent from the directory nothing else changes
and no delivery is attempted; and a broadcast to an existing room with
no connected members appends the one entry and attempts no delivery. -/
theorem claim_C6 (sendOk : String → Bool) (nowStr : String) (s : State)
    (room_id : String) (message : Msg) :
    (broadcast_to_room sendOk nowStr s room_id message false).1.message_history room_id
      = some (((s.message_history room_id).getD []) ++ [storedMsg message room_id nowStr])
    ∧ (s.room_members room_id = none →
        (broadcast_to_room sendOk nowStr s room_id message false).2 = []
        ∧ (broadcast_to_room sendOk nowStr s room_id message false).1.room_members = s.room_members
        ∧ (broadcast_to_room sendOk nowStr s room_id message false).1.active_connections
            = s.active_connections
        ∧ (broadcast_to_room sendOk nowStr s room_id message false).1.user_rooms = s.user_rooms)
    ∧ (∀ members, s.room_members room_id = some members →
        members.filter (fun v => s.active_connections v) = [] →
        (broadcast_to_room sendOk nowStr s room_id message false).2 = []
        ∧ (broadcast_to_room sendOk nowStr s room_id message false).1.room_members = s.room_members
        ∧ (broadcast_to_room sendOk nowStr s room_id message false).1.active_connections
            = s.active_connections) := by
  refine ⟨?_, ?_, ?_⟩
  · cases h : s.room_members room_id with
    | none =>
        simp only [broadcast_eq, h]
        simp [appendHist, mapSet]
    | some members =>
        simp only [broadcast_eq, h]
        rw [foldl_disconnect_message_history]
        simp [appendHist, mapSet]
  · intro h
    simp only [broadcast_eq, h]
    exact ⟨by trivial, by trivial, by trivial, by trivial⟩
  · intro members h hfilter
    simp only [broadcast_eq, h]
    rw [hfilter]
    exact ⟨by trivial, by trivial, by trivial⟩

/-- C6 witness: broadcasting to the directory-less room `nope` attempts
no delivery; broadcasting to `lonely` (whose only member is offline and
which has no log yet) creates the log with exactly the one stored entry
and attempts no delivery. -/
theorem claim_C6_witness :
    sMain.room_members "nope" = none
    ∧ (broadcast_to_room sendOkW "T9" sMain "nope" { content := "x" } false).2 = []
    ∧ sMain.room_members "lonely" = some ["ghost"]
    ∧ List.filter (fun v => sMain.active_connections v) ["ghost"] = []
    ∧ (broadcast_to_room sendOkW "T9" sMain "lonely" { content := "x" } false).2 = []
    ∧ (broadcast_to_room sendOkW "T9" sMain "lonely" { content := "x" } false).1.message_history "lonely"
        = some [storedMsg { content := "x" } "lonely" "T9"] := by
  refine ⟨rfl,
    ((claim_C6 sendOkW "T9" sMain "nope" { content := "x" }).2.1 rfl).1,
    rfl, by decide,
    ((claim_C6 sendOkW "T9" sMain "lonely" { content := "x" }).2.2 ["ghost"] rfl (by decide)).1,
    ?_⟩
  have h := (claim_C6 sendOkW "T9" sMain "lonely" { content := "x" }).1
  simpa [sMain] using h

/-- Closed form of `leave_room` away from the public room: success, with
the two discards applied where the respective sets exist. -/
theorem leave_room_eq (s : State) (u r : String) (hr : r ≠ "public") :
    leave_room s u r
      = (true, { s with
          room_members :=
            match s.room_members r with
            | some m => mapSet s.room_members r (setDiscard m u)
            | none => s.room_members
          user_rooms :=
            match s.user_rooms u with
            | some rs => mapSet s.user_rooms u (setDiscard rs r)
            | none => s.user_rooms }) := by
  unfold leave_room
  rw [if_neg hr]
  cases h1 : s.room_members r <;> cases h2 : s.user_rooms u <;>
    simp only [h1, h2]

/-- C7: leaving the public room is refused and changes nothing; leaving
any other room reports success, removes the user from the room's
membership set and the room from the user's room-set, is idempotent
(repeating it returns success and changes nothing further), and is a
no-op success when the user was not a member. -/
theorem claim_C7 (s : State) (u : String) :
    leave_room s u "public" = (false, s)
    ∧ ∀ r, r ≠ "public" →
        (leave_room s u r).1 = true
        ∧ (∀ m, (leave_room s u r).2.room_members r = some m → u ∉ m)
        ∧ (∀ rs, (leave_room s u r).2.user_rooms u = some rs → r ∉ rs)
        ∧ leave_room (leave_room s u r).2 u r = (true, (leave_room s u r).2)
        ∧ ((∀ m, s.room_members r = some m → u ∉ m) →
           (∀ rs, s.user_rooms u = some rs → r ∉ rs) →
           (leave_room s u r).2 = s) := by
  refine ⟨rfl, ?_⟩
  intro r hr
  have hL := leave_room_eq s u r hr
  have hrm : (leave_room s u r).2.room_members
      = match s.room_members r with
        | some m => mapSet s.room_members r (setDiscard m u)
        | none => s.room_members := by rw [hL]
  have hur : (leave_room s u r).2.user_rooms
      = match s.user_rooms u with
        | some rs => mapSet s.user_rooms u (setDiscard rs r)
        | none => s.user_rooms := by rw [hL]
  have hrmr : ∀ m, (leave_room s u r).2.room_members r = some m → u ∉ m := by
    intro m' hm'
    rw [hrm] at hm'
    cases h1 : s.room_members r with
    | none =>
        try rw [h1] at hm'
        try simp only [] at hm'
        try rw [h1] at hm'
        cases hm'
    | some m =>
        try rw [h1] at hm'
        try simp only [] at hm'
        rw [mapSet_same] at hm'
        cases hm'
        exact setDiscard_not_mem m u
  have huru : ∀ rs, (leave_room s u r).2.user_rooms u = some rs → r ∉ rs := by
    intro rs' hrs'
    rw [hur] at hrs'
    cases h2 : s.user_rooms u with
    | none =>
        try rw [h2] at hrs'
        try simp only [] at hrs'
        try rw [h2] at hrs'
        cases hrs'
    | some rs =>
        try rw [h2] at hrs'
        try simp only [] at hrs'
        rw [mapSet_same] at hrs'
        cases hrs'
        exact setDiscard_not_mem rs r
  refine ⟨by rw [hL], hrmr, huru, ?_, ?_⟩
  · -- idempotence
    have hRM : (match (leave_room s u r).2.room_members r with
        | some m => mapSet (leave_room s u r).2.room_members r (setDiscard m u)
        | none => (leave_room s u r).2.room_members)
        = (leave_room s u r).2.room_members := by
      cases h1 : (leave_room s u r).2.room_members r with
      | none =>
          try rw [h1]
          try simp only []
          try rfl
      | some m =>
          have hu : u ∉ m := hrmr m h1
          try rw [h1]
          try simp only []
          rw [setDiscard_eq_self hu]
          exact mapSet_eq_self h1
    have hUR : (match (leave_room s u r).2.user_rooms u with
        | some rs => mapSet (leave_room s u r).2.user_rooms u (setDiscard rs r)
        | none => (leave_room s u r).2.user_rooms)
        = (leave_room s u r).2.user_rooms := by
      cases h2 : (leave_room s u r).2.user_rooms u with
      | none =>
          try rw [h2]
          try simp only []
          try rfl
      | some rs =>
          have hu : r ∉ rs := huru rs h2
          try rw [h2]
          try simp only []
          rw [setDiscard_eq_self hu]
          exact mapSet_eq_self h2
    rw [leave_room_eq ((leave_room s u r).2) u r hr, hRM, hUR]
  · -- no-op success when not a member
    intro hm hrs
    have hRM : (match s.room_members r with
        | some m => mapSet s.room_members r (setDiscard m u)
        | none => s.room_members) = s.room_members := by
      cases h1 : s.room_members r with
      | none =>
          try rw [h1]
          try simp only []
          try rfl
      | some m =>
          try rw [h1]
          try simp only []
          rw [setDiscard_eq_self (hm m h1)]
          exact mapSet_eq_self h1
    have hUR : (match s.user_rooms u with
        | some rs => mapSet s.user_rooms u (setDiscard rs r)
        | none => s.user_rooms) = s.user_rooms := by
      cases h2 : s.user_rooms u with
      | none =>
          try rw [h2]
          try simp only []
          try rfl
      | some rs =>
          try rw [h2]
          try simp only []
          rw [setDiscard_eq_self (hrs rs h2)]
          exact mapSet_eq_self h2
    rw [hL, hRM, hUR]

/-- C7 witness: `alice` leaves `g1`: success, and repeating the call is
a no-op success. -/
theorem claim_C7_witness :
    ("g1" : String) ≠ "public"
    ∧ (leave_room sMain "alice" "g1").1 = true
    ∧ leave_room (leave_room sMain "alice" "g1").2 "alice" "g1"
        = (true, (leave_room sMain "alice" "g1").2) :=
  ⟨by decide,
   ((claim_C7 sMain "alice").2 "g1" (by decide)).1,
   ((claim_C7 sMain "alice").2 "g1" (by decide)).2.2.2.1⟩

/-- C8: for distinct users, calling `get_or_create_private_room` for
`(a, b)` and then for `(b, a)` yields the same room identifier, whatever
the directory state; the argument order of the pair never affects the
resulting room. -/
theorem claim_C8 (s : State) (ns1 ns2 : String) (a b : String) (hab : a ≠ b) :
    (get_or_create_private_room ns2 (get_or_create_private_room ns1 s a b).2 b a).1
      = (get_or_create_private_room ns1 s a b).1 := by
  cases h : findMatch s.room_metadata a b with
  | some rid =>
      have h2 : findMatch s.room_metadata b a = some rid := by
        rw [findMatch_comm]; exact h
      simp [get_or_create_private_room, h, h2]
  | none =>
      have h2 : findMatch s.room_metadata b a = none := by
        rw [findMatch_comm]; exact h
      have hp : setEqPair [a, b] b a = true := by
        rw [setEqPair_comm]; exact setEqPair_pair a b
      have hfind : findMatch (s.room_metadata ++ [(freshRoomId s.next_uuid,
          { rtype := "private", name := roomNameOr none "private",
            created_at := ns1, members := [a, b] })]) b a
          = some (freshRoomId s.next_uuid) := by
        rw [findMatch_append_none h2]
        unfold findMatch
        rw [if_pos rfl, if_pos hp]
      simp only [get_or_create_private_room, h, create_room, hfind]

/-- C8 witness: the pair `(alice, eve)` then `(eve, alice)` yields the
same fresh room. -/
theorem claim_C8_witness :
    ("alice" : String) ≠ "eve"
    ∧ (get_or_create_private_room "T9" (get_or_create_private_room "T8" sMain "alice" "eve").2
          "eve" "alice").1
        = (get_or_create_private_room "T8" sMain "alice" "eve").1 :=
  ⟨by decide, claim_C8 sMain "T8" "T9" "alice" "eve" (by decide)⟩

/-- C9: an ephemeral broadcast (`exclude_from_history = true`) leaves
every room's message log completely unchanged, while delivery to the
room's connected members still occurs. -/
theorem claim_C9 (sendOk : String → Bool) (nowStr : String) (s : State)
    (room_id : String) (message : Msg) :
    (broadcast_to_room sendOk nowStr s room_id message true).1.message_history
      = s.message_history
    ∧ (∀ members, s.room_members room_id = some members →
        (broadcast_to_room sendOk nowStr s room_id message true).2
          = members.filter (fun v => s.active_connections v)) := by
  constructor
  · cases h : s.room_members room_id with
    | none => simp only [broadcast_eq, h]; rfl
    | some members =>
        simp only [broadcast_eq, h]
        rw [foldl_disconnect_message_history]
        rfl
  · intro members h
    simp only [broadcast_eq, h]

/-- C9 witness: an ephemeral broadcast to the public room delivers to
its connected members. -/
theorem claim_C9_witness :
    sMain.room_members "public" = some ["alice", "bob"]
    ∧ (broadcast_to_room sendOkW "T9" sMain "public" { content := "x" } true).2
        = List.filter (fun v => sMain.active_connections v) ["alice", "bob"] :=
  ⟨rfl, (claim_C9 sendOkW "T9" sMain "public" { content := "x" }).2 ["alice", "bob"] rfl⟩

/-- C10: a room member with NO recorded first-login time is given the
current time as login time, so every message with a parsable past
timestamp is filtered out of the history — only messages whose
timestamp is absent or unparsable can be returned. -/
theorem claim_C10 (parse : String → Option Nat) (now : Nat) (s : State)
    (room_id user_id : String) (limit : Nat)
    (h0 : s.user_login_times user_id = none)
    (hpast : ((s.message_history room_id).getD []).all (fun m => timeLt parse now m) = true) :
    get_user_login_time s user_id now = now
    ∧ ∀ m ∈ get_room_history parse now s room_id user_id limit, msgTime parse m = none := by
  have hl : get_user_login_time s user_id now = now := by
    simp [get_user_login_time, h0]
  refine ⟨hl, ?_⟩
  intro m hm
  unfold get_room_history at hm
  split at hm
  · cases hm
  · split at hm
    · cases hm
    · next log heq =>
        have hall : ∀ x ∈ log, timeLt parse now x = true := by
          rw [heq] at hpast
          simpa using hpast
        have hfil := mem_pyLastSlice hm
        have hp := List.mem_filter.mp hfil
        have htl := hall m hp.1
        have hkeep := hp.2
        rw [hl] at hkeep
        cases hmt : msgTime parse m with
        | none => rfl
        | some t =>
            exfalso
            unfold timeLt at htl
            rw [hmt] at htl
            unfold keepMsg at hkeep
            rw [hmt] at hkeep
            simp at htl hkeep
            omega

/-- C10 witness: `ghost` is a member of `g1` with no recorded login
time; at current time 8 the only message surviving the filter is the
unparsable one. -/
theorem claim_C10_witness :
    sMain.user_login_times "ghost" = none
    ∧ ((sMain.message_history "g1").getD []).all (fun m => timeLt parseW 8 m) = true
    ∧ ∀ m ∈ get_room_history parseW 8 sMain "g1" "ghost" 100, msgTime parseW m = none :=
  ⟨rfl, by decide,
   (claim_C10 parseW 8 sMain "g1" "ghost" 100 rfl (by decide)).2⟩

end Chatbackend
